import Mathlib

/-!
Verification of the `nanodb` key-value store.

The repository has two components:
* an in-memory expiring key-value map `DB[T]` (file `nanodb.go`, reproduced
  in the README): a `map[string]T` of entries, a `map[string]time.Time` of
  lifetime timestamps, an optional expiry duration `timeout`, and deferred
  single-key eviction checks scheduled with `time.AfterFunc`;
* a file-backed variant `DBCache[T, ...]` (file `nanodb_cache.go`) that also
  keeps a backing file path, a `lastSync` timestamp, and an injected
  encoder/decoder pair, reconciling with the file (`load`) and persisting to
  it (`save`).

Go maps are embedded as association lists with overwrite-on-insert
(`mset`) and removal (`mdel`); `time.Time` instants are natural numbers, and
`time.Since(x)` at instant `now` is the integer `now - x` (Go durations are
signed, so the comparison is done in `Int`).  Deferred `time.AfterFunc`
timers are embedded as a `pending` list of (key, fire-at) pairs held in the
store state: scheduling appends, and a timer can fire only if it was
scheduled.  The injected codec is abstract, as the spec directs: a file's
content is embedded as the mapping it decodes to (`none` when decoding
fails), and a save either replaces that content or fails according to an
injected outcome flag standing for open/encode errors.
-/

/-- Lookup in an association list embedding a Go `map[string]_`:
the value at the first matching key, or `none`. -/
def mfind {α : Type} (m : List (String × α)) (k : String) : Option α :=
  match m with
  | [] => none
  | (k', v') :: rest => if k' = k then some v' else mfind rest k

/-- Go map assignment `m[k] = v`: overwrite the binding if `k` is present,
otherwise append a fresh binding. -/
def mset {α : Type} (m : List (String × α)) (k : String) (v : α) : List (String × α) :=
  match m with
  | [] => [(k, v)]
  | (k', v') :: rest => if k' = k then (k, v) :: rest else (k', v') :: mset rest k v

/-- Go `delete(m, k)`: remove every binding of `k` (a no-op when absent). -/
def mdel {α : Type} (m : List (String × α)) (k : String) : List (String × α) :=
  match m with
  | [] => []
  | (k', v') :: rest => if k' = k then mdel rest k else (k', v') :: mdel rest k

/-- State of the in-memory store `DB[T]` (`nanodb.go`): entry map,
lifetime-timestamp map, configured expiry duration (0 means disabled), plus
the set of deferred eviction checks currently scheduled by `time.AfterFunc`
(each is a key together with the instant `now + timeout` it was scheduled to
fire at; Go timers are never cancelled, they fire and re-validate). -/
structure DB (α : Type) where
  data : List (String × α)
  lifetimes : List (String × Nat)
  timeout : Nat
  pending : List (String × Nat)
deriving DecidableEq, Repr

/-- Constructor `New[T]()`: empty maps, no timeout, nothing scheduled. -/
def DB.New {α : Type} : DB α := ⟨[], [], 0, []⟩

/-- Method `DB.scheduleDel` (`nanodb.go`): when a timeout is configured,
register a deferred eviction check for `key` to fire after the timeout. -/
def DB.scheduleDel {α : Type} (db : DB α) (key : String) (now : Nat) : DB α :=
  if db.timeout = 0 then db
  else { db with pending := (key, now + db.timeout) :: db.pending }

/-- Method `DB.Add`: store the value, stamp the key's lifetime with the
current instant, and schedule a deferred eviction check. -/
def DB.Add {α : Type} (db : DB α) (key : String) (value : α) (now : Nat) : DB α :=
  DB.scheduleDel
    { db with data := mset db.data key value, lifetimes := mset db.lifetimes key now }
    key now

/-- Method `DB.Del`: remove both the entry and its lifetime record,
unconditionally. -/
def DB.Del {α : Type} (db : DB α) (key : String) : DB α :=
  { db with data := mdel db.data key, lifetimes := mdel db.lifetimes key }

/-- Method `DB.TryGet`: the stored value and `true`, or the zero value of
the type and `false` when absent. -/
def DB.TryGet {α : Type} [Inhabited α] (db : DB α) (key : String) : α × Bool :=
  match mfind db.data key with
  | some v => (v, true)
  | none => (default, false)

/-- Method `DB.Get`: the stored value, or the zero value when absent. -/
def DB.Get {α : Type} [Inhabited α] (db : DB α) (key : String) : α :=
  (mfind db.data key).getD default

/-- Method `DB.Len`: number of entries. -/
def DB.Len {α : Type} (db : DB α) : Nat := db.data.length

/-- Method `DB.KeysSnapshot`: a fresh list of all current keys. -/
def DB.KeysSnapshot {α : Type} (db : DB α) : List String := db.data.map Prod.fst

/-- Method `DB.Timeout`: set the expiry duration, then reset every existing
key's lifetime to now and schedule a fresh eviction check for it. -/
def DB.Timeout {α : Type} (db : DB α) (d : Nat) (now : Nat) : DB α :=
  (db.data.map Prod.fst).foldl
    (fun acc k => DB.scheduleDel { acc with lifetimes := mset acc.lifetimes k now } k now)
    { db with timeout := d }

/-- Firing of one deferred eviction check (the `time.AfterFunc` callback body
in `DB.scheduleDel`): the callback exists only if it was scheduled; it
removes the entry and its lifetime record only when the time elapsed since
the key's current lifetime timestamp has reached the current timeout
(`time.Since(db.lifetimes[key]) >= db.timeout`; a missing lifetime reads as
the zero instant). -/
def DB.fireTimer {α : Type} (db : DB α) (key : String) (sched now : Nat) : DB α :=
  if db.pending.contains (key, sched) then
    if (db.timeout : Int) ≤ (now : Int) - (((mfind db.lifetimes key).getD 0 : Nat) : Int) then
      { db with data := mdel db.data key, lifetimes := mdel db.lifetimes key,
                pending := db.pending.erase (key, sched) }
    else { db with pending := db.pending.erase (key, sched) }
  else db

/-- One state-changing event on the in-memory store: a caller operation
(`Add`, `Del`, `Timeout`) or the firing of a scheduled eviction check.
Reads (`Get`, `TryGet`, `Seq2`, `KeysSnapshot`, `Len`) do not change state. -/
inductive MemOp (α : Type) where
  | add (key : String) (value : α) (now : Nat)
  | del (key : String)
  | setTimeout (d : Nat) (now : Nat)
  | fire (key : String) (sched now : Nat)
deriving DecidableEq, Repr

/-- Apply one event to an in-memory store state. -/
def DB.run {α : Type} (db : DB α) : MemOp α → DB α
  | .add k v now => db.Add k v now
  | .del k => db.Del k
  | .setTimeout d now => db.Timeout d now
  | .fire k sched now => db.fireTimer k sched now

/-- Apply a sequence of events in order. -/
def DB.runAll {α : Type} (db : DB α) (ops : List (MemOp α)) : DB α :=
  ops.foldl DB.run db

/-- Failure modes of the file-backed store: a failed stat of the backing
file, a failed decode of its content, and a failed open-for-write/encode. -/
inductive Err where
  | statErr
  | decodeErr
  | saveErr
deriving DecidableEq, Repr

/-- The backing file as the store observes it through the abstract codec:
whether it exists (a stat succeeds), the mapping its content decodes to
(`none` when the content is malformed and the decoder fails), and its
last-modified time. -/
structure FileState (α : Type) where
  present : Bool
  decoded : Option (List (String × α))
  modTime : Nat
deriving DecidableEq, Repr

/-- State of the file-backed store `DBCache[T, ...]` (`nanodb_cache.go`):
entry map, lifetime map, expiry duration, the `lastSync` timestamp of the
last reconciliation, and the deferred eviction checks scheduled by its
`scheduleDel` (whose timers invoke `Del`). The backing file path and the
injected codec constructors are abstracted into `FileState`. -/
structure DBCache (α : Type) where
  data : List (String × α)
  lifetimes : List (String × Nat)
  timeout : Nat
  lastSync : Nat
  pending : List (String × Nat)
deriving DecidableEq, Repr

/-- Method `DBCache.load` (reconciliation): stat the backing file (error if
that fails); if its modification time is before (`time.Time.Before`,
strict) `lastSync`, return with no read; otherwise set `lastSync` to the
modification time, open the file and decode its content into the entry map
(error if decoding fails, the maps untouched). Returns the updated store
state and the error, the file unchanged. -/
def DBCache.load {α : Type} (db : DBCache α) (fs : FileState α) :
    DBCache α × Option Err :=
  if fs.present = false then (db, some .statErr)
  else if fs.modTime < db.lastSync then (db, none)
  else
    match fs.decoded with
    | some m => ({ db with lastSync := fs.modTime, data := m }, none)
    | none => ({ db with lastSync := fs.modTime }, some .decodeErr)

/-- Method `DBCache.save` (persistence): truncate the backing file and
encode the whole entry map into it, stamping the current instant as its
modification time. The injected flag `ok` stands for the open/encode
outcome: when it is false the save fails with an error. -/
def DBCache.save {α : Type} (db : DBCache α) (fs : FileState α) (ok : Bool)
    (now : Nat) : FileState α × Option Err :=
  if ok then (⟨true, some db.data, now⟩, none)
  else (fs, some .saveErr)

/-- Method `DBCache.scheduleDel`: when a timeout is configured, register a
deferred check for `key` after the timeout (its timer calls `Del`). -/
def DBCache.scheduleDel {α : Type} (db : DBCache α) (key : String) (now : Nat) :
    DBCache α :=
  if db.timeout = 0 then db
  else { db with pending := (key, now + db.timeout) :: db.pending }

/-- Method `DBCache.TryGet`: reconcile, then look the key up; on a
reconciliation error return the zero value, `false` and that error. -/
def DBCache.TryGet {α : Type} [Inhabited α] (db : DBCache α) (fs : FileState α)
    (key : String) : DBCache α × α × Bool × Option Err :=
  match db.load fs with
  | (db1, some e) => (db1, default, false, some e)
  | (db1, none) =>
    match mfind db1.data key with
    | some v => (db1, v, true, none)
    | none => (db1, default, false, none)

/-- Method `DBCache.Get`: reconcile, then return the value or the zero
value when absent; fails only if reconciliation fails. -/
def DBCache.Get {α : Type} [Inhabited α] (db : DBCache α) (fs : FileState α)
    (key : String) : DBCache α × α × Option Err :=
  match db.load fs with
  | (db1, some e) => (db1, default, some e)
  | (db1, none) => (db1, (mfind db1.data key).getD default, none)

/-- Method `DBCache.Add`: reconcile (returning the error at once if it
fails), then write the entry, stamp its lifetime, schedule the deferred
eviction check, and persist the whole map (`saveOk` injects the
persistence outcome). -/
def DBCache.Add {α : Type} (db : DBCache α) (fs : FileState α) (key : String)
    (value : α) (now : Nat) (saveOk : Bool) :
    DBCache α × FileState α × Option Err :=
  match db.load fs with
  | (db1, some e) => (db1, fs, some e)
  | (db1, none) =>
    let db2 := DBCache.scheduleDel
      { db1 with data := mset db1.data key value, lifetimes := mset db1.lifetimes key now }
      key now
    let (fs1, e) := db2.save fs saveOk now
    (db2, fs1, e)

/-- Method `DBCache.Del` (`nanodb_cache.go:95-109`): no reconciliation.
When a timeout is configured and the time since the key's recorded lifetime
(the zero instant when absent) has reached it, remove the entry and its
lifetime and persist, logging (not returning) any error from that save;
then unconditionally persist again and return that save's error. `saveOk1`
and `saveOk2` inject the outcomes of the conditional and of the final save;
the returned list is the log output. -/
def DBCache.Del {α : Type} (db : DBCache α) (fs : FileState α) (key : String)
    (now : Nat) (saveOk1 saveOk2 : Bool) :
    DBCache α × FileState α × Option Err × List Err :=
  if db.timeout ≠ 0 ∧
      (db.timeout : Int) ≤ (now : Int) - (((mfind db.lifetimes key).getD 0 : Nat) : Int) then
    let db1 := { db with data := mdel db.data key, lifetimes := mdel db.lifetimes key }
    let (fs1, e1) := db1.save fs saveOk1 now
    let (fs2, e2) := db1.save fs1 saveOk2 now
    (db1, fs2, e2, e1.toList)
  else
    let (fs1, e2) := db.save fs saveOk2 now
    (db, fs1, e2, [])

/-- Method `DBCache.Seq2`: attempt reconciliation, discarding its error,
then iterate the entries currently in memory. The returned list is the
sequence of pairs the iterator yields. -/
def DBCache.Seq2 {α : Type} (db : DBCache α) (fs : FileState α) :
    DBCache α × List (String × α) :=
  ((db.load fs).1, (db.load fs).1.data)

/-- Method `DBCache.Len`: reconcile, then count entries. -/
def DBCache.Len {α : Type} (db : DBCache α) (fs : FileState α) :
    DBCache α × Nat × Option Err :=
  match db.load fs with
  | (db1, some e) => (db1, 0, some e)
  | (db1, none) => (db1, db1.data.length, none)

/-- Method `DBCache.KeysSnapshot`: reconcile, then copy out the keys. -/
def DBCache.KeysSnapshot {α : Type} (db : DBCache α) (fs : FileState α) :
    DBCache α × Option (List String) × Option Err :=
  match db.load fs with
  | (db1, some e) => (db1, none, some e)
  | (db1, none) => (db1, some (db1.data.map Prod.fst), none)

/-- Method `DBCache.Timeout`: under the store's lock, set the expiry
duration, reset every existing key's lifetime to now and schedule its
deferred eviction check; no reconciliation, no persistence. -/
def DBCache.Timeout {α : Type} (db : DBCache α) (now : Nat) (d : Nat) : DBCache α :=
  (db.data.map Prod.fst).foldl
    (fun acc k =>
      DBCache.scheduleDel { acc with lifetimes := mset acc.lifetimes k now } k now)
    { db with timeout := d }

/-- Constructor `Fromf` (and `From`, which fixes the JSON codec): start from
empty maps with no timeout; if the backing file does not exist, write an
initial empty snapshot (failing if that save fails); then perform an
initial load and return the store together with the load's error. -/
def Fromf {α : Type} (fs : FileState α) (now : Nat) (saveOk : Bool) :
    Option (DBCache α × FileState α × Option Err) :=
  let db0 : DBCache α := ⟨[], [], 0, 0, []⟩
  if fs.present = false then
    match db0.save fs saveOk now with
    | (_, some _) => none
    | (fs1, none) =>
      let (db1, e) := db0.load fs1
      some (db1, fs1, e)
  else
    let (db1, e) := db0.load fs
    some (db1, fs, e)

/-- Does this event avoid key `k`? Caller operations on other keys avoid it;
`Timeout` acts on the whole store (it is not an operation on another key);
a timer firing is a system event, not a caller operation, and is listed as
avoiding (it can only act if it was actually scheduled). -/
def MemOp.avoids {α : Type} (k : String) : MemOp α → Bool
  | .add k2 _ _ => k2 != k
  | .del k2 => k2 != k
  | .setTimeout _ _ => false
  | .fire _ _ _ => true

/-- Lock actions on a store's mutex, for transcribing each method's locking
discipline from the source. -/
inductive LockAction where
  | acqShared
  | relShared
  | acqExcl
  | relExcl
deriving DecidableEq, Repr

/-- Lock trace of `DB.Get` (`RLock`/`RUnlock`). -/
def DB.GetLockTrace : List LockAction := [.acqShared, .relShared]

/-- Lock trace of `DB.TryGet` (`RLock`/`RUnlock`). -/
def DB.TryGetLockTrace : List LockAction := [.acqShared, .relShared]

/-- Lock trace of `DB.Add` (`Lock`/`Unlock`). -/
def DB.AddLockTrace : List LockAction := [.acqExcl, .relExcl]

/-- Lock trace of `DB.Del` (`Lock`/`Unlock`). -/
def DB.DelLockTrace : List LockAction := [.acqExcl, .relExcl]

/-- Lock trace of `DB.Seq2`'s iterator (`RLock`/`RUnlock`). -/
def DB.Seq2LockTrace : List LockAction := [.acqShared, .relShared]

/-- Lock trace of `DB.KeysSnapshot` (`RLock`/`RUnlock`). -/
def DB.KeysSnapshotLockTrace : List LockAction := [.acqShared, .relShared]

/-- Lock trace of `DB.Len` (`RLock`/`RUnlock`). -/
def DB.LenLockTrace : List LockAction := [.acqShared, .relShared]

/-- Lock trace of `DB.Timeout`: the method body mutates `db.timeout` and
`db.lifetimes` with no `Lock`/`RLock` call at all (see `nanodb.go`,
`func (db *DB[T]) Timeout`). -/
def DB.TimeoutLockTrace : List LockAction := []

/-- Lock trace of the deferred eviction callback inside `DB.scheduleDel`
(`Lock`/`Unlock`). -/
def DB.evictCallbackLockTrace : List LockAction := [.acqExcl, .relExcl]

/-- Lock trace of `DBCache.Timeout` (`nanodb_cache.go:150-161`): it does
take its mutex (`Lock`/`Unlock`). -/
def DBCache.TimeoutLockTrace : List LockAction := [.acqExcl, .relExcl]

/-- Invariant relating the two maps of the in-memory store: every key
present in the entry map has a lifetime record. -/
def lifetimeInv {α : Type} (db : DB α) : Prop :=
  ∀ k, (mfind db.data k).isSome = true → (mfind db.lifetimes k).isSome = true
theorem mfind_mset_self {α : Type} (m : List (String × α)) (k : String) (v : α) :
    mfind (mset m k v) k = some v := by
  induction m with
  | nil => simp [mset, mfind]
  | cons p rest ih =>
    obtain ⟨k', v'⟩ := p
    by_cases h : k' = k <;> simp [mset, mfind, h, ih]

theorem mfind_mset_other {α : Type} (m : List (String × α)) {k k' : String} (v : α)
    (h : k' ≠ k) : mfind (mset m k' v) k = mfind m k := by
  induction m with
  | nil => simp [mset, mfind, h]
  | cons p rest ih =>
    obtain ⟨k'', v''⟩ := p
    by_cases h2 : k'' = k'
    · subst h2
      simp [mset, mfind, h]
    · simp [mset, mfind, h2, ih]

theorem mfind_mdel_self {α : Type} (m : List (String × α)) (k : String) :
    mfind (mdel m k) k = none := by
  induction m with
  | nil => simp [mdel, mfind]
  | cons p rest ih =>
    obtain ⟨k', v'⟩ := p
    by_cases h : k' = k <;> simp [mdel, mfind, h, ih]

theorem mfind_mdel_other {α : Type} (m : List (String × α)) {k k' : String}
    (h : k' ≠ k) : mfind (mdel m k') k = mfind m k := by
  induction m with
  | nil => simp [mdel, mfind]
  | cons p rest ih =>
    obtain ⟨k'', v''⟩ := p
    by_cases h2 : k'' = k'
    · subst h2
      simp [mdel, mfind, h, ih]
    · simp [mdel, mfind, h2, ih]

theorem scheduleDel_data {α : Type} (db : DB α) (k : String) (now : Nat) :
    (db.scheduleDel k now).data = db.data := by
  unfold DB.scheduleDel
  split <;> rfl

theorem scheduleDel_lifetimes {α : Type} (db : DB α) (k : String) (now : Nat) :
    (db.scheduleDel k now).lifetimes = db.lifetimes := by
  unfold DB.scheduleDel
  split <;> rfl

theorem scheduleDel_timeout {α : Type} (db : DB α) (k : String) (now : Nat) :
    (db.scheduleDel k now).timeout = db.timeout := by
  unfold DB.scheduleDel
  split <;> rfl

/-- One event that avoids `k`, applied to a state with no timeout and no
scheduled checks, keeps the value stored at `k` and keeps the store free of
timeouts and scheduled checks. -/
theorem DB.run_avoids_stable {α : Type} {k : String} {v : α} (op : MemOp α)
    (db : DB α) (h : op.avoids k = true) (ht : db.timeout = 0)
    (hp : db.pending = []) (hv : mfind db.data k = some v) :
    (db.run op).timeout = 0 ∧ (db.run op).pending = [] ∧
      mfind (db.run op).data k = some v := by
  cases op with
  | add k2 v2 t =>
    simp only [MemOp.avoids, bne_iff_ne, ne_eq] at h
    refine ⟨?_, ?_, ?_⟩
    · simp [DB.run, DB.Add, DB.scheduleDel, ht]
    · simp [DB.run, DB.Add, DB.scheduleDel, ht, hp]
    · simp only [DB.run, DB.Add, DB.scheduleDel, ht, if_pos]
      rw [mfind_mset_other _ _ h]
      exact hv
  | del k2 =>
    simp only [MemOp.avoids, bne_iff_ne, ne_eq] at h
    refine ⟨ht, hp, ?_⟩
    rw [DB.run, DB.Del, mfind_mdel_other _ h]
    exact hv
  | setTimeout d t =>
    simp [MemOp.avoids] at h
  | fire k2 sched t =>
    have hc : db.pending.contains (k2, sched) = false := by simp [hp]
    simp only [DB.run, DB.fireTimer, hc, Bool.false_eq_true, if_false]
    exact ⟨ht, hp, hv⟩

/-- Extension of `DB.run_avoids_stable` to a whole sequence of events. -/
theorem DB.runAll_avoids_stable {α : Type} {k : String} {v : α}
    (ops : List (MemOp α)) (db : DB α) (hops : ∀ op ∈ ops, op.avoids k = true)
    (ht : db.timeout = 0) (hp : db.pending = []) (hv : mfind db.data k = some v) :
    mfind (db.runAll ops).data k = some v := by
  induction ops generalizing db with
  | nil => exact hv
  | cons op rest ih =>
    have h1 := DB.run_avoids_stable op db (hops op (by simp)) ht hp hv
    exact ih (db.run op) (fun o ho => hops o (by simp [ho])) h1.1 h1.2.1 h1.2.2

/-- C1: for the in-memory store with no expiry configured (`timeout = 0` and
hence nothing scheduled): after `Add(k, v)`, `TryGet(k)` returns `(v, true)`,
and this remains true after any further sequence of operations on other
keys (reads do not change state, so re-reads are covered by the result
holding at every intermediate state), until `Del(k)` is called. -/
theorem mem_add_tryGet_stable {α : Type} [Inhabited α] (db : DB α) (k : String)
    (v : α) (now : Nat) (ops : List (MemOp α)) (ht : db.timeout = 0)
    (hp : db.pending = []) (hops : ∀ op ∈ ops, op.avoids k = true) :
    DB.TryGet (DB.runAll (db.Add k v now) ops) k = (v, true) := by
  have h := @DB.runAll_avoids_stable α k v ops (db.Add k v now) hops
    (by simp [DB.Add, scheduleDel_timeout, ht])
    (by simp [DB.Add, DB.scheduleDel, ht, hp])
    (by simp [DB.Add, scheduleDel_data, mfind_mset_self])
  simp [DB.TryGet, h]

/-- Witness for C1 at a concrete store, key and operation sequence. -/
theorem mem_add_tryGet_stable_witness :
    DB.TryGet (DB.runAll (DB.Add (DB.New : DB Nat) "a" 7 0)
      [MemOp.del "b", MemOp.add "c" 5 1, MemOp.fire "a" 3 9]) "a" = (7, true) :=
  mem_add_tryGet_stable DB.New "a" 7 0 _ (by decide) (by decide) (by decide)

/-- When the elapsed time since the key's current lifetime timestamp has not
reached the timeout, a firing eviction check leaves the entry map alone. -/
theorem fireTimer_data_noexpire {α : Type} (db : DB α) (key : String)
    (sched now : Nat)
    (h : ¬ ((db.timeout : Int) ≤ (now : Int) - (((mfind db.lifetimes key).getD 0 : Nat) : Int))) :
    (db.fireTimer key sched now).data = db.data := by
  unfold DB.fireTimer
  split
  · rfl
  · rfl

/-- C3: for the in-memory store with expiry duration `D` configured, a
deferred eviction check for `k` removes it only if the elapsed time since
`k`'s current lifetime timestamp is at least `D`; hence a check firing at
any instant `tf` earlier than `D` after a re-`Add(k, v2)` at `t2` (in
particular the stale check scheduled by an earlier `Add`, which fires
strictly before `t2 + D`) never removes `k`, and `TryGet(k)` still reports
`(v2, true)` — also at instant `t2 + D` itself, reads being
time-independent, as long as only that stale check has fired. -/
theorem stale_evict_check_noop {α : Type} [Inhabited α] (db : DB α)
    (k : String) (v2 : α) (t2 sched tf : Nat) (hD : db.timeout ≠ 0)
    (hf : tf < t2 + db.timeout) :
    DB.TryGet (DB.fireTimer (db.Add k v2 t2) k sched tf) k = (v2, true) := by
  have hAl : (db.Add k v2 t2).lifetimes = mset db.lifetimes k t2 := by
    rw [DB.Add, scheduleDel_lifetimes]
  have hAt : (db.Add k v2 t2).timeout = db.timeout := by
    rw [DB.Add, scheduleDel_timeout]
  have hAd : (db.Add k v2 t2).data = mset db.data k v2 := by
    rw [DB.Add, scheduleDel_data]
  have hcond : ¬ (((db.Add k v2 t2).timeout : Int) ≤
      (tf : Int) - (((mfind (db.Add k v2 t2).lifetimes k).getD 0 : Nat) : Int)) := by
    rw [hAl, hAt, mfind_mset_self]
    simp only [Option.getD_some]
    omega
  have hdata := fireTimer_data_noexpire (db.Add k v2 t2) k sched tf hcond
  simp [DB.TryGet, hdata, hAd, mfind_mset_self]

/-- Witness for C3: timeout 5, re-Add at instant 10, stale check fires at
instant 12 (scheduled for instant 5 by an Add at instant 0). -/
theorem stale_evict_check_noop_witness :
    DB.TryGet (DB.fireTimer (DB.Add (⟨[("k", 1)], [("k", 0)], 5, [("k", 5)]⟩ : DB Nat)
      "k" 3 10) "k" 5 12) "k" = (3, true) :=
  stale_evict_check_noop _ "k" 3 10 5 12 (by decide) (by decide)

theorem isSome_mfind_mset {α : Type} (m : List (String × α)) (k k2 : String)
    (v : α) (h : (mfind m k).isSome = true) :
    (mfind (mset m k2 v) k).isSome = true := by
  by_cases hk : k2 = k
  · subst hk
    rw [mfind_mset_self]
    rfl
  · rw [mfind_mset_other _ _ hk]
    exact h

/-- One event preserves the entry-has-lifetime invariant of the in-memory
store. -/
theorem DB.run_preserves_inv {α : Type} (op : MemOp α) (db : DB α)
    (h : lifetimeInv db) : lifetimeInv (db.run op) := by
  cases op with
  | add k2 v2 t =>
    intro k hk
    rw [DB.run, DB.Add, scheduleDel_lifetimes] at *
    rw [scheduleDel_data] at hk
    by_cases he : k2 = k
    · subst he
      rw [mfind_mset_self]
      rfl
    · rw [mfind_mset_other _ _ he]
      rw [mfind_mset_other _ _ he] at hk
      exact h k hk
  | del k2 =>
    intro k hk
    rw [DB.run, DB.Del] at *
    by_cases he : k2 = k
    · subst he
      rw [mfind_mdel_self] at hk
      simp at hk
    · rw [mfind_mdel_other _ he]
      rw [mfind_mdel_other _ he] at hk
      exact h k hk
  | setTimeout d t =>
    rw [DB.run, DB.Timeout]
    generalize (db.data.map Prod.fst) = ks
    have hbase : lifetimeInv ({ db with timeout := d } : DB α) := h
    generalize ({ db with timeout := d } : DB α) = db0 at hbase
    induction ks generalizing db0 with
    | nil => exact hbase
    | cons k0 rest ih =>
      refine ih _ ?_
      intro k hk
      rw [scheduleDel_lifetimes]
      rw [scheduleDel_data] at hk
      exact isSome_mfind_mset _ _ _ _ (hbase k hk)
  | fire k2 sched t =>
    intro k hk
    rw [DB.run, DB.fireTimer] at *
    by_cases hc : db.pending.contains (k2, sched) = true
    · by_cases hcond :
          (db.timeout : Int) ≤ (t : Int) - (((mfind db.lifetimes k2).getD 0 : Nat) : Int)
      · simp only [hc, hcond, if_true, reduceIte] at hk ⊢
        by_cases he : k2 = k
        · subst he
          simp [mfind_mdel_self] at hk
        · simp only [mfind_mdel_other _ he] at hk ⊢
          exact h k hk
      · simp only [hc, hcond, if_true, reduceIte] at hk ⊢
        exact h k hk
    · simp only [hc, reduceIte] at hk ⊢
      exact h k hk

/-- Counterexample to C6: constructing a file-backed store from an existing
file that already holds the key `"k"` yields a state whose entry map
contains `"k"` but whose lifetime map is empty — reconciliation repopulates
only the entry map, never the lifetime map. -/
theorem fromf_lifetime_missing_cex :
    Option.map
      (fun r => ((mfind r.1.data "k").isSome, (mfind r.1.lifetimes "k").isSome))
      (Fromf (α := Nat) ⟨true, some [("k", 7)], 4⟩ 0 true) = some (true, false) := by
  decide

/-- C6 amended: for the in-memory store, every state reachable from `New`
by any sequence of operations and timer firings satisfies the invariant
that every key present in the entry map has a lifetime record. (For the
file-backed store the invariant fails at construction from a non-empty
file, see the counterexample.) -/
theorem mem_inv_reachable {α : Type} (ops : List (MemOp α)) :
    lifetimeInv (DB.runAll (DB.New : DB α) ops) := by
  have hstep : ∀ (l : List (MemOp α)) (db : DB α), lifetimeInv db →
      lifetimeInv (db.runAll l) := by
    intro l
    induction l with
    | nil => exact fun db h => h
    | cons op rest ih => exact fun db h => ih (db.run op) (DB.run_preserves_inv op db h)
  refine hstep ops DB.New ?_
  intro k hk
  simp [DB.New, mfind] at hk

/-- Witness for C6 at a concrete operation sequence and key. -/
theorem mem_inv_reachable_witness :
    (mfind (DB.runAll (DB.New : DB Nat)
      [MemOp.add "a" 3 0, MemOp.setTimeout 5 1]).lifetimes "a").isSome = true :=
  mem_inv_reachable [MemOp.add "a" 3 0, MemOp.setTimeout 5 1] "a" (by decide)

/-- C9 fails on the code: the in-memory `DB.Timeout` mutates the shared
`timeout` and `lifetimes` fields without acquiring the store's
reader/writer lock at all, while `Add`, `Del` and the deferred eviction
callback do take it in exclusive mode (and the file-backed
`DBCache.Timeout` takes its mutex). The lock traces below are transcribed
from the method bodies in the source. -/
theorem timeout_lock_trace_bug :
    DB.TimeoutLockTrace = [] ∧
    DB.AddLockTrace = [LockAction.acqExcl, LockAction.relExcl] ∧
    DB.DelLockTrace = [LockAction.acqExcl, LockAction.relExcl] ∧
    DB.evictCallbackLockTrace = [LockAction.acqExcl, LockAction.relExcl] ∧
    DBCache.TimeoutLockTrace = [LockAction.acqExcl, LockAction.relExcl] ∧
    DB.TimeoutLockTrace ≠ DB.AddLockTrace := by
  decide

theorem load_present_cases {α : Type} (db : DBCache α) (fs : FileState α)
    (hp : fs.present = true) :
    (db.lastSync ≤ fs.modTime →
      (fs.decoded = none → db.load fs = ({ db with lastSync := fs.modTime }, some Err.decodeErr)) ∧
      ∀ m, fs.decoded = some m →
        db.load fs = ({ db with lastSync := fs.modTime, data := m }, none)) ∧
    (fs.modTime < db.lastSync → db.load fs = (db, none)) := by
  unfold DBCache.load
  rw [hp]
  constructor
  · intro hle
    have hlt : ¬ fs.modTime < db.lastSync := by omega
    refine ⟨fun hd => ?_, fun m hd => ?_⟩ <;> simp [hlt, hd]
  · intro hlt
    simp [hlt]

/-- Counterexample to C5: when the backing file's modification time equals
`lastSync` (here both 5), the claim says the disk read is skipped, but
`load` uses a strict `Before` comparison and does reload: the entry map is
replaced by the file's content. -/
theorem load_reload_at_equal_modtime_cex :
    (DBCache.load (⟨[("a", 1)], [], 0, 5, []⟩ : DBCache Nat)
        ⟨true, some [("b", 2)], 5⟩).1.data = [("b", 2)] ∧
    (DBCache.load (⟨[("a", 1)], [], 0, 5, []⟩ : DBCache Nat)
        ⟨true, some [("b", 2)], 5⟩).1.data ≠ [("a", 1)] ∧
    (DBCache.load (⟨[("a", 1)], [], 0, 5, []⟩ : DBCache Nat)
        ⟨true, some [("b", 2)], 5⟩).2 = none := by
  decide

/-- C5 amended: reconciliation skips the disk read exactly when the backing
file's modification time is strictly older than the instance's `lastSync`
timestamp; whenever the modification time is greater than or equal to
`lastSync`, `lastSync` is updated to it and the file content (when it
decodes) replaces the in-memory entry map. -/
theorem load_skip_iff_strictly_older {α : Type} (db : DBCache α)
    (fs : FileState α) (hp : fs.present = true) :
    (fs.modTime < db.lastSync → db.load fs = (db, none)) ∧
    (db.lastSync ≤ fs.modTime →
      (db.load fs).1.lastSync = fs.modTime ∧
      ∀ m, fs.decoded = some m → (db.load fs).1.data = m ∧ (db.load fs).2 = none) := by
  have hcases := load_present_cases db fs hp
  refine ⟨hcases.2, fun hle => ?_⟩
  cases hd : fs.decoded with
  | none =>
    rw [(hcases.1 hle).1 hd]
    exact ⟨rfl, fun m hm => by simp at hm⟩
  | some m0 =>
    rw [(hcases.1 hle).2 m0 hd]
    refine ⟨rfl, fun m hm => ?_⟩
    injection hm with hm2
    subst hm2
    exact ⟨rfl, rfl⟩

/-- Witness for C5 on both sides of the boundary: a strictly older file is
skipped; an equal-time file is reloaded. -/
theorem load_skip_iff_strictly_older_witness :
    DBCache.load (⟨[("a", 1)], [], 0, 7, []⟩ : DBCache Nat) ⟨true, some [("b", 2)], 3⟩
      = (⟨[("a", 1)], [], 0, 7, []⟩, none) ∧
    (DBCache.load (⟨[("a", 1)], [], 0, 7, []⟩ : DBCache Nat)
        ⟨true, some [("b", 2)], 7⟩).1.data = [("b", 2)] :=
  ⟨(load_skip_iff_strictly_older _ _ (by decide)).1 (by decide),
   (((load_skip_iff_strictly_older _ _ (by decide)).2 (by decide)).2 _ (by decide)).1⟩

/-- When the expiry condition of `DBCache.Del` does not hold, `Del` only
runs its final unconditional save. -/
theorem del_not_expired {α : Type} (db : DBCache α) (fs : FileState α)
    (k : String) (now : Nat) (o1 o2 : Bool)
    (hq : ¬ (db.timeout ≠ 0 ∧
      (db.timeout : Int) ≤ (now : Int) - (((mfind db.lifetimes k).getD 0 : Nat) : Int))) :
    db.Del fs k now o1 o2 = (db, (db.save fs o2 now).1, (db.save fs o2 now).2, []) := by
  unfold DBCache.Del
  rw [if_neg hq]

/-- C2: for the file-backed store, when the key is present and expiry is
disabled (`timeout = 0`) or not yet elapsed, `Del(k)` leaves the entry in
the map, returns no error (persistence succeeding), still rewrites the
backing file (its content becomes the unchanged map, its modification time
the current instant), and a subsequent reconciled read (`TryGet`) still
finds the key with its value. -/
theorem cache_del_before_expiry {α : Type} [Inhabited α] (db : DBCache α)
    (fs : FileState α) (k : String) (v : α) (now : Nat)
    (hk : mfind db.data k = some v)
    (hq : db.timeout = 0 ∨
      (now : Int) - (((mfind db.lifetimes k).getD 0 : Nat) : Int) < (db.timeout : Int)) :
    (db.Del fs k now true true).1.data = db.data ∧
    (db.Del fs k now true true).2.2.1 = none ∧
    (db.Del fs k now true true).2.1 = ⟨true, some db.data, now⟩ ∧
    (DBCache.TryGet (db.Del fs k now true true).1 (db.Del fs k now true true).2.1 k).2.1 = v ∧
    (DBCache.TryGet (db.Del fs k now true true).1 (db.Del fs k now true true).2.1 k).2.2.1 = true ∧
    (DBCache.TryGet (db.Del fs k now true true).1 (db.Del fs k now true true).2.1 k).2.2.2 = none := by
  have hq2 : ¬ (db.timeout ≠ 0 ∧
      (db.timeout : Int) ≤ (now : Int) - (((mfind db.lifetimes k).getD 0 : Nat) : Int)) := by
    rcases hq with h0 | hlt
    · exact fun hc => hc.1 h0
    · exact fun hc => by omega
  rw [del_not_expired db fs k now true true hq2]
  have hsave : db.save fs true now = (⟨true, some db.data, now⟩, none) := rfl
  rw [hsave]
  have hload : db.load ⟨true, some db.data, now⟩ = (db, none) ∨
      db.load ⟨true, some db.data, now⟩
        = ({ db with lastSync := now, data := db.data }, none) := by
    by_cases hlt : (⟨true, some db.data, now⟩ : FileState α).modTime < db.lastSync
    · exact Or.inl ((load_present_cases db _ rfl).2 hlt)
    · exact Or.inr (((load_present_cases db _ rfl).1 (by simpa using hlt)).2 db.data rfl)
  refine ⟨rfl, rfl, rfl, ?_, ?_, ?_⟩ <;>
    · unfold DBCache.TryGet
      rcases hload with h | h <;> simp only [h, hk]

/-- Witness for C2: timeout disabled, key "a" present; Del keeps it, errors
nothing, rewrites the file, and a reconciled TryGet still finds it. -/
theorem cache_del_before_expiry_witness :
    (DBCache.Del (⟨[("a", 2)], [("a", 9)], 0, 0, []⟩ : DBCache Nat)
        ⟨true, some [("a", 2)], 0⟩ "a" 5 true true).1.data = [("a", 2)] ∧
    (DBCache.Del (⟨[("a", 2)], [("a", 9)], 0, 0, []⟩ : DBCache Nat)
        ⟨true, some [("a", 2)], 0⟩ "a" 5 true true).2.2.1 = none ∧
    (DBCache.Del (⟨[("a", 2)], [("a", 9)], 0, 0, []⟩ : DBCache Nat)
        ⟨true, some [("a", 2)], 0⟩ "a" 5 true true).2.1 = ⟨true, some [("a", 2)], 5⟩ ∧
    (DBCache.TryGet
      (DBCache.Del (⟨[("a", 2)], [("a", 9)], 0, 0, []⟩ : DBCache Nat)
        ⟨true, some [("a", 2)], 0⟩ "a" 5 true true).1
      (DBCache.Del (⟨[("a", 2)], [("a", 9)], 0, 0, []⟩ : DBCache Nat)
        ⟨true, some [("a", 2)], 0⟩ "a" 5 true true).2.1 "a").2.1 = 2 ∧
    (DBCache.TryGet
      (DBCache.Del (⟨[("a", 2)], [("a", 9)], 0, 0, []⟩ : DBCache Nat)
        ⟨true, some [("a", 2)], 0⟩ "a" 5 true true).1
      (DBCache.Del (⟨[("a", 2)], [("a", 9)], 0, 0, []⟩ : DBCache Nat)
        ⟨true, some [("a", 2)], 0⟩ "a" 5 true true).2.1 "a").2.2.1 = true ∧
    (DBCache.TryGet
      (DBCache.Del (⟨[("a", 2)], [("a", 9)], 0, 0, []⟩ : DBCache Nat)
        ⟨true, some [("a", 2)], 0⟩ "a" 5 true true).1
      (DBCache.Del (⟨[("a", 2)], [("a", 9)], 0, 0, []⟩ : DBCache Nat)
        ⟨true, some [("a", 2)], 0⟩ "a" 5 true true).2.1 "a").2.2.2 = none :=
  cache_del_before_expiry _ _ "a" 2 5 (by decide) (Or.inl rfl)

/-- Counterexample to C7: on the file-backed store with expiry disabled
(`timeout = 0`), `Del("k")` completes without error, yet an immediately
following `TryGet("k")` still reports `found = true` — `DBCache.Del` only
removes a key whose expiry has elapsed. -/
theorem cache_del_still_found_cex :
    (DBCache.TryGet
      (DBCache.Del (⟨[("k", 1)], [("k", 0)], 0, 0, []⟩ : DBCache Nat)
        ⟨true, some [("k", 1)], 0⟩ "k" 5 true true).1
      (DBCache.Del (⟨[("k", 1)], [("k", 0)], 0, 0, []⟩ : DBCache Nat)
        ⟨true, some [("k", 1)], 0⟩ "k" 5 true true).2.1 "k").2.2.1 = true ∧
    (DBCache.Del (⟨[("k", 1)], [("k", 0)], 0, 0, []⟩ : DBCache Nat)
      ⟨true, some [("k", 1)], 0⟩ "k" 5 true true).2.2.1 = none := by
  decide

/-- C7 amended: immediately after `Del(k)`, `TryGet(k)` reports
`found = false` for the in-memory store, whether or not `k` was present;
for the file-backed store this holds when expiry is enabled and `k`'s
recorded lifetime has elapsed (`timeout ≠ 0` and elapsed ≥ timeout, the
saves succeeding) — with expiry disabled or not yet elapsed, a present key
is still found afterwards (see the counterexample and C2). -/
theorem del_tryGet_false_amended {α : Type} [Inhabited α] :
    (∀ (db : DB α) (k : String), (DB.TryGet (db.Del k) k).2 = false) ∧
    (∀ (db : DBCache α) (fs : FileState α) (k : String) (now : Nat),
      db.timeout ≠ 0 →
      (db.timeout : Int) ≤ (now : Int) - (((mfind db.lifetimes k).getD 0 : Nat) : Int) →
      (DBCache.TryGet (db.Del fs k now true true).1
        (db.Del fs k now true true).2.1 k).2.2.1 = false) := by
  constructor
  · intro db k
    simp [DB.TryGet, DB.Del, mfind_mdel_self]
  · intro db fs k now h1 h2
    have hdel : db.Del fs k now true true =
        ({ db with data := mdel db.data k, lifetimes := mdel db.lifetimes k },
          ⟨true, some (mdel db.data k), now⟩, none, []) := by
      unfold DBCache.Del
      rw [if_pos ⟨h1, h2⟩]
      rfl
    rw [hdel]
    have hload := load_present_cases
      ({ db with data := mdel db.data k, lifetimes := mdel db.lifetimes k })
      (⟨true, some (mdel db.data k), now⟩ : FileState α) rfl
    by_cases hlt : now < db.lastSync
    · have h := hload.2 (by simpa using hlt)
      unfold DBCache.TryGet
      simp only [h, mfind_mdel_self]
    · have h := (hload.1 (by simpa using hlt)).2 (mdel db.data k) rfl
      unfold DBCache.TryGet
      simp only [h, mfind_mdel_self]

/-- Witness for C7 (amended) at concrete stores: in-memory after Del, and
file-backed after Del of an expired key. -/
theorem del_tryGet_false_amended_witness :
    (DB.TryGet (DB.Del (⟨[("a", 1)], [("a", 0)], 0, []⟩ : DB Nat) "a") "a").2 = false ∧
    (DBCache.TryGet
      (DBCache.Del (⟨[("a", 1)], [("a", 0)], 3, 0, []⟩ : DBCache Nat)
        ⟨true, some [("a", 1)], 0⟩ "a" 9 true true).1
      (DBCache.Del (⟨[("a", 1)], [("a", 0)], 3, 0, []⟩ : DBCache Nat)
        ⟨true, some [("a", 1)], 0⟩ "a" 9 true true).2.1 "a").2.2.1 = false :=
  ⟨(@del_tryGet_false_amended Nat _).1 _ "a",
   (@del_tryGet_false_amended Nat _).2 _ _ "a" 9 (by decide) (by decide)⟩

theorem cscheduleDel_data {α : Type} (db : DBCache α) (k : String) (now : Nat) :
    (DBCache.scheduleDel db k now).data = db.data := by
  unfold DBCache.scheduleDel
  split <;> rfl

theorem cscheduleDel_lifetimes {α : Type} (db : DBCache α) (k : String) (now : Nat) :
    (DBCache.scheduleDel db k now).lifetimes = db.lifetimes := by
  unfold DBCache.scheduleDel
  split <;> rfl

theorem cscheduleDel_lastSync {α : Type} (db : DBCache α) (k : String) (now : Nat) :
    (DBCache.scheduleDel db k now).lastSync = db.lastSync := by
  unfold DBCache.scheduleDel
  split <;> rfl

/-- Counterexample to C4: the backing file changed after the last sync
(modification time 5 > lastSync 0, its content now empty), so a
reconciliation would replace the in-memory map with the empty map and
advance lastSync to 5; `Del` instead runs without any load — its result
keeps the stale entry and the old lastSync, and its final save clobbers
the newer file content with the stale map. -/
theorem cache_del_no_reconcile_cex :
    (DBCache.Del (⟨[("a", 1)], [("a", 0)], 0, 0, []⟩ : DBCache Nat)
        ⟨true, some [], 5⟩ "a" 6 true true).1.data = [("a", 1)] ∧
    (DBCache.Del (⟨[("a", 1)], [("a", 0)], 0, 0, []⟩ : DBCache Nat)
        ⟨true, some [], 5⟩ "a" 6 true true).1.lastSync = 0 ∧
    (DBCache.load (⟨[("a", 1)], [("a", 0)], 0, 0, []⟩ : DBCache Nat)
        ⟨true, some [], 5⟩).1.data = [] ∧
    (DBCache.load (⟨[("a", 1)], [("a", 0)], 0, 0, []⟩ : DBCache Nat)
        ⟨true, some [], 5⟩).1.lastSync = 5 ∧
    (DBCache.Del (⟨[("a", 1)], [("a", 0)], 0, 0, []⟩ : DBCache Nat)
        ⟨true, some [], 5⟩ "a" 6 true true).2.1.decoded = some [("a", 1)] := by
  decide

/-- C4 amended: `Get`, `TryGet`, `Len`, `KeysSnapshot` and `Seq2` do
reconcile first (their resulting store state is the state `load` produces,
and `Add` mutates the reconciled map when the load succeeds); `Del` does
not reconcile — the store state it produces is independent of the backing
file (and `Timeout` takes no file input at all). -/
theorem cache_reconcile_ops {α : Type} [Inhabited α] (db : DBCache α)
    (fs fs2 : FileState α) (k : String) (v : α) (now : Nat) (ok o1 o2 : Bool) :
    (db.TryGet fs k).1 = (db.load fs).1 ∧
    (db.Get fs k).1 = (db.load fs).1 ∧
    (db.Len fs).1 = (db.load fs).1 ∧
    (db.KeysSnapshot fs).1 = (db.load fs).1 ∧
    (db.Seq2 fs).1 = (db.load fs).1 ∧
    ((db.load fs).2 = none → (db.Add fs k v now ok).1.data = mset (db.load fs).1.data k v) ∧
    (db.Del fs k now o1 o2).1 = (db.Del fs2 k now o1 o2).1 := by
  rcases hl : db.load fs with ⟨db1, e⟩
  refine ⟨?_, ?_, ?_, ?_, ?_, ?_, ?_⟩
  · unfold DBCache.TryGet
    rw [hl]
    cases e with
    | none => cases hm : mfind db1.data k <;> simp [hm]
    | some e0 => rfl
  · unfold DBCache.Get
    rw [hl]
    cases e <;> rfl
  · unfold DBCache.Len
    rw [hl]
    cases e <;> rfl
  · unfold DBCache.KeysSnapshot
    rw [hl]
    cases e <;> rfl
  · unfold DBCache.Seq2
    rw [hl]
  · intro he
    have he2 : e = none := he
    subst he2
    unfold DBCache.Add
    rw [hl]
    show (DBCache.scheduleDel
      { db1 with data := mset db1.data k v, lifetimes := mset db1.lifetimes k now }
      k now).data = mset db1.data k v
    rw [cscheduleDel_data]
  · by_cases hcond : db.timeout ≠ 0 ∧
        (db.timeout : Int) ≤ (now : Int) - (((mfind db.lifetimes k).getD 0 : Nat) : Int)
    · unfold DBCache.Del
      rw [if_pos hcond, if_pos hcond]
    · rw [del_not_expired db fs k now o1 o2 hcond,
        del_not_expired db fs2 k now o1 o2 hcond]

/-- Witness for C4 (amended) at a concrete store: Add mutates the
reconciled map, and Del's resulting store state does not depend on the
backing file. -/
theorem cache_reconcile_ops_witness :
    (DBCache.Add (⟨[], [], 0, 0, []⟩ : DBCache Nat) ⟨true, some [("b", 5)], 3⟩
        "a" 1 4 true).1.data
      = mset (DBCache.load (⟨[], [], 0, 0, []⟩ : DBCache Nat)
          ⟨true, some [("b", 5)], 3⟩).1.data "a" 1 ∧
    (DBCache.Del (⟨[], [], 0, 0, []⟩ : DBCache Nat) ⟨true, some [("b", 5)], 3⟩
        "a" 4 true true).1
      = (DBCache.Del (⟨[], [], 0, 0, []⟩ : DBCache Nat) ⟨false, none, 9⟩
        "a" 4 true true).1 :=
  ⟨(cache_reconcile_ops (⟨[], [], 0, 0, []⟩ : DBCache Nat) ⟨true, some [("b", 5)], 3⟩
      ⟨false, none, 9⟩ "a" 1 4 true true true).2.2.2.2.2.1 (by decide),
   (cache_reconcile_ops (⟨[], [], 0, 0, []⟩ : DBCache Nat) ⟨true, some [("b", 5)], 3⟩
      ⟨false, none, 9⟩ "a" 1 4 true true true).2.2.2.2.2.2⟩

theorem load_preserves_rest {α : Type} (db : DBCache α) (fs : FileState α) :
    (db.load fs).1.lifetimes = db.lifetimes ∧
    (db.load fs).1.pending = db.pending ∧
    (db.load fs).1.timeout = db.timeout := by
  unfold DBCache.load
  by_cases hp : fs.present = false
  · simp [hp]
  · by_cases hlt : fs.modTime < db.lastSync
    · simp [hp, hlt]
    · cases hd : fs.decoded <;> simp [hp, hlt, hd]

/-- When reconciliation fails, the entry map is left as it was. -/
theorem load_fail_data {α : Type} (db : DBCache α) (fs : FileState α)
    (h : ((db.load fs).2).isSome = true) : (db.load fs).1.data = db.data := by
  unfold DBCache.load at h ⊢
  by_cases hp : fs.present = false
  · simp [hp]
  · by_cases hlt : fs.modTime < db.lastSync
    · simp [hp, hlt] at h
    · cases hd : fs.decoded with
      | some m => simp [hp, hlt, hd] at h
      | none => simp [hp, hlt, hd]

/-- C8: for the file-backed store's `Del`, the error of the save inside the
conditional-removal branch is only logged, never returned: the returned
error is exactly the final unconditional save's outcome, whatever the
conditional save did (first conjunct), and a failing conditional save shows
up in the log (second conjunct). `Seq2` discards the reconciliation error
and iterates what is in memory: when the load fails, it yields exactly the
entries the store already held (third conjunct). -/
theorem del_error_policy_seq2 {α : Type} :
    (∀ (db : DBCache α) (fs : FileState α) (k : String) (now : Nat) (o1 o2 : Bool),
      (db.Del fs k now o1 o2).2.2.1 = (if o2 = true then none else some Err.saveErr)) ∧
    (∀ (db : DBCache α) (fs : FileState α) (k : String) (now : Nat) (o2 : Bool),
      (db.timeout ≠ 0 ∧
        (db.timeout : Int) ≤ (now : Int) - (((mfind db.lifetimes k).getD 0 : Nat) : Int)) →
      (db.Del fs k now false o2).2.2.2 = [Err.saveErr]) ∧
    (∀ (db : DBCache α) (fs : FileState α),
      ((db.load fs).2).isSome = true → (db.Seq2 fs).2 = db.data) := by
  refine ⟨?_, ?_, ?_⟩
  · intro db fs k now o1 o2
    by_cases hcond : db.timeout ≠ 0 ∧
        (db.timeout : Int) ≤ (now : Int) - (((mfind db.lifetimes k).getD 0 : Nat) : Int)
    · unfold DBCache.Del
      rw [if_pos hcond]
      cases o1 <;> cases o2 <;> rfl
    · rw [del_not_expired db fs k now o1 o2 hcond]
      cases o2 <;> rfl
  · intro db fs k now o2 hcond
    unfold DBCache.Del
    rw [if_pos hcond]
    cases o2 <;> rfl
  · intro db fs h
    show (db.load fs).1.data = db.data
    exact load_fail_data db fs h

/-- Witness for C8 at a concrete store: a failing conditional save is
logged while Del still returns the final save's success, and Seq2 yields
the in-memory entries after a failed load. -/
theorem del_error_policy_seq2_witness :
    (DBCache.Del (⟨[("a", 1)], [("a", 0)], 2, 0, []⟩ : DBCache Nat)
        ⟨true, some [("a", 1)], 0⟩ "a" 9 false true).2.2.2 = [Err.saveErr] ∧
    (DBCache.Del (⟨[("a", 1)], [("a", 0)], 2, 0, []⟩ : DBCache Nat)
        ⟨true, some [("a", 1)], 0⟩ "a" 9 false true).2.2.1
      = (if true = true then none else some Err.saveErr) ∧
    (DBCache.Seq2 (⟨[("a", 1)], [("a", 0)], 2, 0, []⟩ : DBCache Nat)
        ⟨false, none, 3⟩).2 = [("a", 1)] :=
  ⟨(del_error_policy_seq2 (α := Nat)).2.1 _ _ "a" 9 true ⟨by decide, by decide⟩,
   (del_error_policy_seq2 (α := Nat)).1 _ _ "a" 9 false true,
   (del_error_policy_seq2 (α := Nat)).2.2 _ _ (by decide)⟩

/-- Counterexample to C10: with a malformed backing file (decode fails)
whose modification time 7 is newer than `lastSync` 0, `Add` returns the
decode error and leaves the maps alone — but the store's state is not
entirely unchanged: `lastSync` has been advanced to 7 by the failed load. -/
theorem add_load_fail_lastSync_cex :
    (DBCache.Add (⟨[("a", 1)], [("a", 0)], 0, 0, []⟩ : DBCache Nat)
        ⟨true, none, 7⟩ "b" 2 9 true).2.2 = some Err.decodeErr ∧
    (DBCache.Add (⟨[("a", 1)], [("a", 0)], 0, 0, []⟩ : DBCache Nat)
        ⟨true, none, 7⟩ "b" 2 9 true).1.lastSync = 7 ∧
    (DBCache.Add (⟨[("a", 1)], [("a", 0)], 0, 0, []⟩ : DBCache Nat)
        ⟨true, none, 7⟩ "b" 2 9 true).1.data = [("a", 1)] := by
  decide

/-- C10 amended: if the reconciliation at the start of `Add(k, v)` fails,
`Add` returns that error; the entry map, lifetime map and pending eviction
schedule are not mutated and the backing file is not written — but the
store is not necessarily entirely unchanged: its result is exactly the
failed load's result state, whose `lastSync` may have been advanced (when
the failure occurred at the decode step, after the modification-time
check). -/
theorem add_load_fail_no_mutation {α : Type} (db : DBCache α)
    (fs : FileState α) (k : String) (v : α) (now : Nat) (ok : Bool) (e : Err)
    (h : (db.load fs).2 = some e) :
    db.Add fs k v now ok = ((db.load fs).1, fs, some e) ∧
    (db.load fs).1.data = db.data ∧
    (db.load fs).1.lifetimes = db.lifetimes ∧
    (db.load fs).1.pending = db.pending ∧
    (db.load fs).1.timeout = db.timeout := by
  refine ⟨?_, load_fail_data db fs (by rw [h]; rfl), (load_preserves_rest db fs).1,
    (load_preserves_rest db fs).2.1, (load_preserves_rest db fs).2.2⟩
  unfold DBCache.Add
  rcases hl : db.load fs with ⟨db1, e2⟩
  rw [hl] at h
  have he : e2 = some e := h
  subst he
  rfl

/-- Witness for C10 at a concrete malformed-file store. -/
theorem add_load_fail_no_mutation_witness :
    DBCache.Add (⟨[("x", 4)], [("x", 1)], 0, 2, []⟩ : DBCache Nat)
        ⟨true, none, 6⟩ "y" 8 9 true
      = ((DBCache.load (⟨[("x", 4)], [("x", 1)], 0, 2, []⟩ : DBCache Nat)
          ⟨true, none, 6⟩).1, ⟨true, none, 6⟩, some Err.decodeErr) :=
  (add_load_fail_no_mutation _ _ "y" 8 9 true Err.decodeErr (by decide)).1
